import Mathlib

/-!
Verification of the crawl-extract-store pipeline of the `mkt-chatbot`
repository, as a shallow embedding in Lean.

The embedding follows the Python sources:
  * `src/aws/s3.py` — object-store client (`save_dict_to_json`,
    `list_files_from_path`, `read_json`);
  * `src/crawler/spiders/superside.py` — `SupersideSpider.parse_item`,
    the URL-sanitising key derivation and Page Capture write;
  * `src/processing/_base.py` — `BaseProcessing.get_files_paths`,
    `extract_next_data`, `cleanhtml`, `extract_text_by_xpath`;
  * `src/processing/superside.py` — `Superside.run`, the batch driver
    with its MongoDB `replace_one(..., upsert=True)` record write.

Python `dict`/`list`/`str`/`int`/`bool`/`None` JSON values are modelled by the
inductive `Json`; the standard-library `json.dumps`/`json.loads` pair is
modelled by an executable encoder (`dumps`) and recursive-descent parser
(`loads`) over the printable-ASCII fragment that the repository stores;
`lxml`'s `html.fromstring`/`HtmlElement.xpath` are abstracted by a parse
function parameter and by trees-as-selector-functions, since XPath evaluation
itself is outside the repository; the `nested_lookup` library function and
MongoDB's replace-one-with-upsert semantics are modelled from their documented
behaviour.  Exceptions are modelled with `Except PyErr`: Python code that can
raise is embedded as a fallible function, and the `for` loop of
`Superside.run` propagates the first error, keeping the records already
written (`runLoop`).
-/

namespace MktChatbot

/-- A JSON value as Python's `json` module produces it, with numbers
restricted to integers (the repository never stores floats). `obj` keeps the
key/value pairs in document order, as `json.loads` encounters them. -/
inductive Json where
  | null
  | bool (b : Bool)
  | num (n : Int)
  | str (s : String)
  | arr (xs : List Json)
  | obj (kvs : List (String × Json))
deriving Repr

mutual

/-- Structural equality test on `Json` values (Python `==` on parsed JSON). -/
def Json.beq : Json → Json → Bool
  | .null, .null => true
  | .bool a, .bool b => a == b
  | .num a, .num b => a == b
  | .str a, .str b => a == b
  | .arr xs, .arr ys => Json.beqL xs ys
  | .obj kvs, .obj lws => Json.beqKL kvs lws
  | _, _ => false

/-- Equality test on lists of `Json` values. -/
def Json.beqL : List Json → List Json → Bool
  | [], [] => true
  | x :: xs, y :: ys => Json.beq x y && Json.beqL xs ys
  | _, _ => false

/-- Equality test on key/value lists of `Json` objects. -/
def Json.beqKL : List (String × Json) → List (String × Json) → Bool
  | [], [] => true
  | (k, v) :: kvs, (l, w) :: lws => k == l && Json.beq v w && Json.beqKL kvs lws
  | _, _ => false

end

/-- Equality test on the optional JSON values produced by Python
`dict.get` (used by the Mongo `{url: ...}` filter match). -/
def optJsonBeq : Option Json → Option Json → Bool
  | none, none => true
  | some a, some b => Json.beq a b
  | _, _ => false

/-- Python truthiness of a parsed JSON value (`if text:` in
`extract_next_data`'s list comprehension). -/
def pyTruthy : Json → Bool
  | .null => false
  | .bool b => b
  | .num n => !(n == 0)
  | .str s => !(s == "")
  | .arr xs => !xs.isEmpty
  | .obj kvs => !kvs.isEmpty

/-- The Python exceptions the embedded code can raise. -/
inductive PyErr where
  /-- `list[0]` on an empty list (`extract_next_data` line 105). -/
  | indexError
  /-- `json.loads` on malformed input. -/
  | jsonDecodeError
  /-- attribute access on a value that lacks it (`.get` on a non-dict,
  `.strip()` on a non-string). -/
  | attributeError
  /-- operation on a value of the wrong type (`html.fromstring(None)`,
  iterating over `None`). -/
  | typeError
  /-- `lxml.etree.ParserError` (`html.fromstring("")`). -/
  | parserError
  /-- S3 `NoSuchKey` on `get_object` with an absent key. -/
  | noSuchKey
deriving DecidableEq, Repr

/-! ### List-of-characters string helpers

The Python string operations used by the repository, written over `List Char`
with structural recursion so that every definition evaluates by `rfl`. -/

/-- Python `url.split("://")` (the separator used by
`SupersideSpider.parse_item` line 56): the pieces of the character list
between non-overlapping occurrences of `://`, scanned left to right. -/
def splitSep : List Char → List (List Char)
  | ':' :: '/' :: '/' :: rest => [] :: splitSep rest
  | c :: cs =>
    match splitSep cs with
    | [] => [[c]]
    | p :: ps => (c :: p) :: ps
  | [] => [[]]

/-- Python `sep.join(pieces)` on character lists. -/
def joinWith (sep : List Char) : List (List Char) → List Char
  | [] => []
  | [x] => x
  | x :: y :: t => x ++ sep ++ joinWith sep (y :: t)

/-- Python `" ".join(strings)`. -/
def joinSpace (xs : List String) : String :=
  String.mk (joinWith [' '] (xs.map String.data))

/-- Python `.replace("\n", "")`: drop every newline character. -/
def removeNewlines : List Char → List Char
  | [] => []
  | '\n' :: cs => removeNewlines cs
  | c :: cs => c :: removeNewlines cs

/-- Python `.replace("&nbsp;", "")`: remove non-overlapping occurrences of
the six-character sequence `&nbsp;`, scanning left to right. -/
def removeNbsp : List Char → List Char
  | '&' :: 'n' :: 'b' :: 's' :: 'p' :: ';' :: rest => removeNbsp rest
  | c :: cs => c :: removeNbsp cs
  | [] => []

/-- The postprocessing `.replace("\n", "").replace("&nbsp;", "")` applied by
both `extract_text_by_xpath` (line 155) and `extract_next_data` (line 118). -/
def pyClean (s : String) : String :=
  String.mk (removeNbsp (removeNewlines s.data))

/-- The characters Python `str.strip()` removes (ASCII whitespace). -/
def pyWs (c : Char) : Bool :=
  c = ' ' || c = '\t' || c = '\n' || c = '\r' || c = '\x0b' || c = '\x0c'

/-- Python `str.strip()`. -/
def pyStrip (s : String) : String :=
  String.mk (((s.data.dropWhile pyWs).reverse.dropWhile pyWs).reverse)

/-- Substring membership, Python's `substring in file` (`get_files_paths`
line 88). -/
def isSubstringOf (pat : List Char) : List Char → Bool
  | [] => pat.isEmpty
  | c :: cs => pat.isPrefixOf (c :: cs) || isSubstringOf pat cs

/-! ### `BaseProcessing.cleanhtml` (`src/processing/_base.py` lines 122-136)

`re.sub(re.compile("<.*?>"), "", text)`: scanning left to right, at each `<`
the lazy pattern matches up to the first following `>` provided no newline
stands between (`.` does not match `\n`); matched spans are removed,
everything else is kept. -/

/-- Scan for the end of a lazy `<.*?>` match: the number of characters up to
and including the first `>`, or `none` if a newline or the end of input comes
first. -/
def tagEnd : List Char → Option Nat
  | [] => none
  | c :: cs =>
    if c = '>' then some 1
    else if c = '\n' then none
    else (tagEnd cs).map (· + 1)

/-- One left-to-right pass of `re.sub("<.*?>", "", ·)` over a character
list. -/
def cleanhtmlAux : List Char → List Char
  | [] => []
  | c :: cs =>
    if c = '<' then
      match tagEnd cs with
      | some n => cleanhtmlAux (cs.drop n)
      | none => c :: cleanhtmlAux cs
    else c :: cleanhtmlAux cs
termination_by cs => cs.length
decreasing_by
  · have h : (cs.drop n).length ≤ cs.length := by
      rw [List.length_drop]; omega
    simpa using Nat.lt_succ_of_le h
  · simp
  · simp

/-- `BaseProcessing.cleanhtml`: strip `<...>` spans from a string. -/
def cleanhtml (text : String) : String :=
  String.mk (cleanhtmlAux text.data)

/-! ### `nested_lookup` (the `nested-lookup` library used at
`src/processing/_base.py` lines 107-110)

`nested_lookup(key, document)` yields, in document order, every value found
under `key` at any depth: lists are traversed element-wise; in a dict each
pair whose key matches yields its value, and the value is recursed into
regardless of whether its key matched. -/

mutual

/-- All values under `key` anywhere in a JSON document, in document order. -/
def nestedLookup (key : String) : Json → List Json
  | .arr xs => nestedLookupL key xs
  | .obj kvs => nestedLookupKL key kvs
  | _ => []

/-- `nestedLookup` over the elements of a JSON list. -/
def nestedLookupL (key : String) : List Json → List Json
  | [] => []
  | x :: xs => nestedLookup key x ++ nestedLookupL key xs

/-- `nestedLookup` over the pairs of a JSON object. -/
def nestedLookupKL (key : String) : List (String × Json) → List Json
  | [] => []
  | (k, v) :: kvs =>
      (if k = key then [v] else []) ++ nestedLookup key v ++ nestedLookupKL key kvs

end

/-! ### `json.dumps` (used by `AWSS3.save_dict_to_json`, `src/aws/s3.py`
line 30)

`json.dumps` with default arguments: item separator `", "`, key separator
`": "`, integers in decimal, `"` and `\` escaped inside strings.  The model
covers values whose strings are printable ASCII (`wfJ`), the fragment on
which this encoder agrees with Python's. -/

/-- The decimal digit characters. -/
def digitChars : List Char := "0123456789".data

/-- The character of one decimal digit. -/
def dchar (r : Nat) : Char := digitChars.getD r '0'

/-- Decimal digits of `n`, most significant first (`[]` for `0`), computed
with an explicit fuel bound so that the definition is structural. -/
def digitsOfPosAux : Nat → Nat → List Char
  | 0, _ => []
  | _, 0 => []
  | fuel + 1, n + 1 => digitsOfPosAux fuel ((n + 1) / 10) ++ [dchar ((n + 1) % 10)]

/-- Decimal digits of `n`, most significant first (`[]` for `0`). -/
def digitsOfPos (n : Nat) : List Char := digitsOfPosAux n n

/-- Python decimal rendering of a natural number. -/
def natToChars (n : Nat) : List Char := if n = 0 then ['0'] else digitsOfPos n

/-- Python decimal rendering of an integer. -/
def encodeInt (n : Int) : List Char :=
  if n < 0 then '-' :: natToChars n.natAbs else natToChars n.toNat

/-- JSON string-body encoding: escape `"` and `\`, close with `"`. -/
def encodeStr : List Char → List Char
  | [] => ['"']
  | c :: cs =>
    (if c = '"' then ['\\', '"'] else if c = '\\' then ['\\', '\\'] else [c])
      ++ encodeStr cs

mutual

/-- `json.dumps` of one JSON value, as a character list. -/
def encodeJ : Json → List Char
  | .null => "null".data
  | .bool true => "true".data
  | .bool false => "false".data
  | .num n => encodeInt n
  | .str s => '"' :: encodeStr s.data
  | .arr xs => '[' :: encodeElems xs
  | .obj kvs => '\x7b' :: encodeMembers kvs

/-- Encode array elements, `", "`-separated, closing with `]`. -/
def encodeElems : List Json → List Char
  | [] => [']']
  | [x] => encodeJ x ++ [']']
  | x :: y :: t => encodeJ x ++ ',' :: ' ' :: encodeElems (y :: t)

/-- Encode object members, `", "`-separated with `": "` after each key,
closing with the closing brace. -/
def encodeMembers : List (String × Json) → List Char
  | [] => ['\x7d']
  | [(k, v)] => '"' :: encodeStr k.data ++ ':' :: ' ' :: encodeJ v ++ ['\x7d']
  | (k, v) :: m :: t =>
      '"' :: encodeStr k.data ++ ':' :: ' ' :: encodeJ v ++ ',' :: ' ' :: encodeMembers (m :: t)

end

/-- `json.dumps(item)` as a `String`. -/
def dumps (j : Json) : String := String.mk (encodeJ j)

/-- A printable-ASCII character: on strings of these (no control characters,
no code points above 127) the encoder agrees with Python `json.dumps`. -/
def wfChar (c : Char) : Bool := 32 ≤ c.toNat && c.toNat ≤ 126

mutual

/-- A JSON value whose strings (including object keys) are printable
ASCII. -/
def wfJ : Json → Bool
  | .str s => s.data.all wfChar
  | .arr xs => wfL xs
  | .obj kvs => wfKL kvs
  | _ => true

/-- `wfJ` over the elements of a JSON list. -/
def wfL : List Json → Bool
  | [] => true
  | x :: xs => wfJ x && wfL xs

/-- `wfJ` over the pairs of a JSON object. -/
def wfKL : List (String × Json) → Bool
  | [] => true
  | (k, v) :: kvs => k.data.all wfChar && wfJ v && wfKL kvs

end

/-! ### `json.loads` (used by `AWSS3.read_json`, `src/aws/s3.py` line 46, and
by `extract_next_data`, `src/processing/_base.py` line 106)

A recursive-descent JSON parser with a fuel bound for structural
termination.  It accepts everything the encoder above produces; on input it
cannot read it returns `none`, the model of `json.JSONDecodeError`. -/

/-- A JSON whitespace character. -/
def wsChar (c : Char) : Bool := c = ' ' || c = '\t' || c = '\n' || c = '\r'

/-- Skip leading JSON whitespace. -/
def skipWs : List Char → List Char
  | [] => []
  | c :: cs => if wsChar c then skipWs cs else c :: cs

/-- The character an escape sequence `\c` denotes, `none` if `\c` is not a
recognised escape. -/
def escChar (c : Char) : Option Char :=
  if c = '"' then some '"'
  else if c = '\\' then some '\\'
  else if c = '/' then some '/'
  else if c = 'n' then some '\n'
  else if c = 't' then some '\t'
  else if c = 'r' then some '\r'
  else if c = 'b' then some '\x08'
  else if c = 'f' then some '\x0c'
  else none

/-- Parse a JSON string body after the opening quote: the decoded characters
and the remainder after the closing quote. -/
def parseStr : List Char → Option (List Char × List Char)
  | [] => none
  | c :: cs =>
    if c = '"' then some ([], cs)
    else if c = '\\' then
      match cs with
      | [] => none
      | e :: cs' =>
        match escChar e with
        | some ec => (parseStr cs').map (fun p => (ec :: p.1, p.2))
        | none => none
    else (parseStr cs).map (fun p => (c :: p.1, p.2))

/-- Read a maximal run of decimal digits, accumulating their value. -/
def readDigits : List Char → Nat → Nat × List Char
  | [], acc => (acc, [])
  | c :: cs, acc =>
    if c.isDigit then readDigits cs (acc * 10 + (c.toNat - 48)) else (acc, c :: cs)

/-- Parse a JSON integer (an optional minus sign and at least one digit). -/
def parseNum : List Char → Option (Int × List Char)
  | [] => none
  | c :: cs =>
    if c = '-' then
      match cs with
      | [] => none
      | d :: _ =>
        if d.isDigit then
          let p := readDigits cs 0
          some (-(p.1 : Int), p.2)
        else none
    else if c.isDigit then
      let p := readDigits (c :: cs) 0
      some ((p.1 : Int), p.2)
    else none

mutual

/-- Parse one JSON value (after skipping leading whitespace). -/
def parseVal : Nat → List Char → Option (Json × List Char)
  | 0, _ => none
  | fuel + 1, cs₀ =>
    match skipWs cs₀ with
    | [] => none
    | c :: cs =>
      if c = 'n' then
        if cs.take 3 = ['u', 'l', 'l'] then some (.null, cs.drop 3) else none
      else if c = 't' then
        if cs.take 3 = ['r', 'u', 'e'] then some (.bool true, cs.drop 3) else none
      else if c = 'f' then
        if cs.take 4 = ['a', 'l', 's', 'e'] then some (.bool false, cs.drop 4) else none
      else if c = '"' then
        (parseStr cs).map (fun p => (.str (String.mk p.1), p.2))
      else if c = '[' then
        let r := skipWs cs
        if r.head? = some ']' then some (.arr [], r.tail)
        else (parseElems fuel r).map (fun p => (.arr p.1, p.2))
      else if c = '\x7b' then
        let r := skipWs cs
        if r.head? = some '\x7d' then some (.obj [], r.tail)
        else (parseMembers fuel r).map (fun p => (.obj p.1, p.2))
      else (parseNum (c :: cs)).map (fun p => (.num p.1, p.2))

/-- Parse the elements of a non-empty JSON array up to and including the
closing bracket. -/
def parseElems : Nat → List Char → Option (List Json × List Char)
  | 0, _ => none
  | fuel + 1, cs =>
    match parseVal fuel cs with
    | none => none
    | some (v, r) =>
      let r' := skipWs r
      if r'.head? = some ',' then
        match parseElems fuel r'.tail with
        | some (vs, r'') => some (v :: vs, r'')
        | none => none
      else if r'.head? = some ']' then some ([v], r'.tail)
      else none

/-- Parse the members of a non-empty JSON object up to and including the
closing brace. -/
def parseMembers : Nat → List Char → Option (List (String × Json) × List Char)
  | 0, _ => none
  | fuel + 1, cs =>
    match skipWs cs with
    | [] => none
    | c :: cs' =>
      if c = '"' then
        match parseStr cs' with
        | none => none
        | some (k, r₁) =>
          match skipWs r₁ with
          | [] => none
          | c₂ :: r₂ =>
            if c₂ = ':' then
              match parseVal fuel r₂ with
              | none => none
              | some (v, r₃) =>
                let r₄ := skipWs r₃
                if r₄.head? = some ',' then
                  match parseMembers fuel r₄.tail with
                  | some (kvs, r₅) => some ((String.mk k, v) :: kvs, r₅)
                  | none => none
                else if r₄.head? = some '\x7d' then some ([(String.mk k, v)], r₄.tail)
                else none
            else none
      else none

end

/-- `json.loads`: parse a whole string as one JSON value, requiring only
whitespace to remain; `none` models `json.JSONDecodeError`. -/
def loads (s : String) : Option Json :=
  match parseVal (s.data.length + 1) s.data with
  | some (j, r) => if (skipWs r).isEmpty then some j else none
  | none => none

/-- Whether a character list does not start with a decimal digit (so that a
parsed number cannot swallow part of it). -/
def noLeadDigit : List Char → Bool
  | [] => true
  | c :: _ => !c.isDigit

/-- The characters an encoded JSON value can start with. -/
def isEncHead (c : Char) : Bool :=
  c = 'n' || c = 't' || c = 'f' || c = '"' || c = '[' || c = '\x7b' || c = '-' || c.isDigit

mutual

/-- The parser fuel a JSON value needs: one unit per `parseVal` call. -/
def sizeJ : Json → Nat
  | .arr xs => 1 + sizeL xs
  | .obj kvs => 1 + sizeKL kvs
  | _ => 1

/-- The parser fuel a list of array elements needs. -/
def sizeL : List Json → Nat
  | [] => 0
  | x :: xs => 1 + max (sizeJ x) (sizeL xs)

/-- The parser fuel a list of object members needs. -/
def sizeKL : List (String × Json) → Nat
  | [] => 0
  | (_, v) :: kvs => 1 + max (sizeJ v) (sizeKL kvs)

end

/-! ### The Object Store client (`src/aws/s3.py`)

The bucket is modelled as an association list from keys to stored bodies, in
which a key occurs at most once: `put_object` overwrites in place or
appends. -/

/-- The S3 bucket contents: `(key, body)` pairs. -/
abbrev S3Store := List (String × String)

/-- The body stored at `key`, if any. -/
def s3Get (store : S3Store) (key : String) : Option String :=
  match store with
  | [] => none
  | (k, v) :: rest => if k = key then some v else s3Get rest key

/-- `client.put_object(Bucket=..., Body=body, Key=key)`: store `body` at
`key`, overwriting any previous object under that key. -/
def put_object (store : S3Store) (key body : String) : S3Store :=
  match store with
  | [] => [(key, body)]
  | (k, v) :: rest =>
    if k = key then (key, body) :: rest else (k, v) :: put_object rest key body

/-- `AWSS3.save_dict_to_json` (lines 27-32): serialise `item` with
`json.dumps` and store it under `path`. -/
def save_dict_to_json (store : S3Store) (item : Json) (path : String) : S3Store :=
  put_object store path (dumps item)

/-- `AWSS3.list_files_from_path` (lines 34-40): the keys whose name starts
with `path`; `None` — not the empty list — when there are none
(`list_objects_v2` omits `Contents` then, and the code maps the absent
entry to `None`). -/
def list_files_from_path (store : S3Store) (path : String) : Option (List String) :=
  match store.filter (fun kv => path.data.isPrefixOf kv.1.data) with
  | [] => none
  | objs => some (objs.map (fun kv => kv.1))

/-- `AWSS3.read_json` (lines 42-46): fetch the object at `path` and parse it
as JSON; raises `NoSuchKey` when the key is absent and `JSONDecodeError`
when the body does not parse. -/
def read_json (store : S3Store) (path : String) : Except PyErr Json :=
  match s3Get store path with
  | none => .error .noSuchKey
  | some body =>
    match loads body with
    | some j => .ok j
    | none => .error .jsonDecodeError

/-! ### The crawler's Page Capture write
(`SupersideSpider.parse_item`, `src/crawler/spiders/superside.py` lines 42-65) -/

/-- Line 56: `page_name = response.url.split("://")[-1].replace("/", "-")`. -/
def page_name (url : String) : String :=
  String.mk (((splitSep url.data).getLastD []).map (fun c => if c = '/' then '-' else c))

/-- Line 57: `"".join([i if ord(i) < 128 else "-" for i in page_name])`. -/
def page_name_cleaned (url : String) : String :=
  String.mk ((page_name url).data.map (fun c => if c.toNat < 128 then c else '-'))

/-- Line 58: `f"pages/{self.name}/{page_name_cleaned}.json"`. -/
def file_path (name url : String) : String :=
  "pages/" ++ name ++ "/" ++ page_name_cleaned url ++ ".json"

/-- `parse_item`: store `{"url": response.url, "content": response.text}` at
the sanitised key. `name` is the spider name (`"Superside"`), `content` the
raw page HTML. -/
def parse_item (store : S3Store) (name url content : String) : S3Store :=
  save_dict_to_json store (.obj [("url", .str url), ("content", .str content)]) (file_path name url)

/-! ### `BaseProcessing` (`src/processing/_base.py`) -/

/-- The `invalid_pages` class attribute (lines 41-46). -/
def invalid_pages : List String :=
  ["-blog-author-", "-blog-authors-", "-blog-category-", "-blog-tag-"]

/-- `get_files_paths` (lines 82-90), with the `glob` result over
`datalake/<company>/*.json` abstracted as the input list: keep the paths in
which no `invalid_pages` substring occurs. -/
def get_files_paths (files : List String) : List String :=
  files.filter (fun file => !(invalid_pages.any (fun sub => isSubstringOf sub.data file.data)))

/-- An lxml HTML tree abstracted by its XPath evaluation: the list of string
results of `tree.xpath(selector)` for each selector. -/
abbrev HtmlTree := String → List String

/-- `extract_text_by_xpath` (lines 138-155): `None` when the selector
matches nothing, else the matches joined with single spaces and stripped of
newlines and `&nbsp;`. -/
def extract_text_by_xpath (tree : HtmlTree) (selector : String) : Option String :=
  match tree selector with
  | [] => none
  | data => some (pyClean (joinSpace data))

/-- The XPath selector of line 105 of `extract_next_data`. -/
def nextDataSelector : String := "//script[@id='__NEXT_DATA__']//text()"

/-- The list comprehension of line 117,
`[self.cleanhtml(text.strip()) for text in next_data if text]`: falsy values
are skipped, string values are stripped and tag-cleaned, and a truthy
non-string raises `AttributeError` at its `.strip()` call. -/
def cleanValues : List Json → Except PyErr (List String)
  | [] => .ok []
  | v :: vs =>
    if pyTruthy v then
      match v with
      | .str s =>
        match cleanValues vs with
        | .ok r => .ok (cleanhtml (pyStrip s) :: r)
        | .error e => .error e
      | _ => .error .attributeError
    else cleanValues vs

/-- Lines 107-120 of `extract_next_data`, after the JSON payload has been
parsed: look up `paragraph`, `body` and `content` (the `title` lookup of
line 110 is performed but its result discarded), clean and join the
collected values, and return `None` when the joined text is empty
(`next_data_text or None`). -/
def extractFromJson (data_parsed : Json) : Except PyErr (Option String) :=
  let paragraph := nestedLookup "paragraph" data_parsed
  let body := nestedLookup "body" data_parsed
  let content := nestedLookup "content" data_parsed
  let next_data := paragraph ++ body ++ content
  match cleanValues next_data with
  | .error e => .error e
  | .ok next_data_cleaned =>
    let next_data_text := pyClean (joinSpace next_data_cleaned)
    .ok (if next_data_text = "" then none else some next_data_text)

/-- `extract_next_data` (lines 92-120).  Line 105 indexes `[0]` into the
XPath result, so an absent `__NEXT_DATA__` script tag raises `IndexError`;
line 106 parses the tag text, raising `JSONDecodeError` on malformed
JSON. -/
def extract_next_data (tree : HtmlTree) : Except PyErr (Option String) :=
  match tree nextDataSelector with
  | [] => .error .indexError
  | data :: _ =>
    match loads data with
    | none => .error .jsonDecodeError
    | some data_parsed => extractFromJson data_parsed

/-! ### `Superside.run` (`src/processing/superside.py` lines 30-62)

The MongoDB collection is a list of items; `replace_one` with
`filter={"url": item["url"]}` and `upsert=True` replaces the first document
whose `url` equals the item's, or appends the item when none matches.
`html.fromstring` is a parameter `fromstring` returning `none` where lxml
would raise (e.g. on an empty document); applying it to a missing or
non-string `content` value raises before lxml is reached. -/

/-- One document of the company's MongoDB collection (the `item` dict of
lines 54-60). -/
structure Item where
  url : Option Json
  title : Option String
  description : Option String
  texts : Option String
  updated_at : Nat

/-- The three XPath extractions and the item dict of lines 50-60. -/
def mkItem (tree : HtmlTree) (url : Option Json) (now : Nat) : Item :=
  { url := url
    title := extract_text_by_xpath tree "//meta[@property=\"og:title\"]//@content"
    description := extract_text_by_xpath tree "//meta[@name=\"description\"]//@content"
    texts := extract_text_by_xpath tree "//p//text()"
    updated_at := now }

/-- The value under `key` in an object's pair list, later occurrences taking
precedence as in a Python dict built by `json.loads`. -/
def lookupLast : List (String × Json) → String → Option Json
  | [], _ => none
  | (k, v) :: kvs, key =>
    match lookupLast kvs key with
    | some r => some r
    | none => if k = key then some v else none

/-- Python `dict.get(key)` on a parsed JSON value: `None` when the key is
absent, the value of its last occurrence otherwise; on a non-dict the
attribute access raises. -/
def dictGet (j : Json) (key : String) : Except PyErr (Option Json) :=
  match j with
  | .obj kvs => .ok (lookupLast kvs key)
  | _ => .error .attributeError

/-- `html.fromstring(file_contents.get("content"))` (line 48): a missing key
or a non-string value raises before parsing; on a string, `fromstring`
yields a tree or raises `ParserError`. -/
def pyFromstring (fromstring : String → Option HtmlTree) : Option Json → Except PyErr HtmlTree
  | some (.str s) =>
    match fromstring s with
    | some t => .ok t
    | none => .error .parserError
  | some _ => .error .typeError
  | none => .error .typeError

/-- The body of one iteration of the `for` loop of `Superside.run`
(lines 46-60): read and parse the stored object, build the HTML tree from
its `content`, extract the three fields and build the Mongo item. -/
def processFile (fromstring : String → Option HtmlTree) (store : S3Store) (now : Nat)
    (file : String) : Except PyErr Item := do
  let file_contents ← read_json store file
  let content ← dictGet file_contents "content"
  let tree ← pyFromstring fromstring content
  let url ← dictGet file_contents "url"
  return mkItem tree url now

/-- MongoDB `collection.replace_one(filter={"url": item["url"]},
replacement=item, upsert=True)` (line 62): replace the first document whose
`url` field equals the item's, or insert the item when none matches. -/
def replace_one (coll : List Item) (item : Item) : List Item :=
  match coll with
  | [] => [item]
  | d :: ds => if optJsonBeq d.url item.url then item :: ds else d :: replace_one ds item

/-- The `for file in files` loop of `Superside.run` (lines 45-62): process
the listed keys in order, upserting one record per key; an exception aborts
the loop, leaving the records already written and reporting the error. -/
def runLoop (fromstring : String → Option HtmlTree) (store : S3Store) (now : Nat) :
    List String → List Item → List Item × Option PyErr
  | [], coll => (coll, none)
  | f :: fs, coll =>
    match processFile fromstring store now f with
    | .error e => (coll, some e)
    | .ok item => runLoop fromstring store now fs (replace_one coll item)

/-- Processing of a list of files outside the loop: the items the loop
would upsert, or the first error raised.  `runLoop` refines this: when
`processAll` succeeds the loop upserts exactly these items in order. -/
def processAll (fromstring : String → Option HtmlTree) (store : S3Store) (now : Nat) :
    List String → Except PyErr (List Item)
  | [] => .ok []
  | f :: fs =>
    match processFile fromstring store now f with
    | .error e => .error e
    | .ok item =>
      match processAll fromstring store now fs with
      | .error e => .error e
      | .ok items => .ok (item :: items)

/-- `Superside.run` (lines 43-62): list the keys under `pages/<company>` and
process each.  `list_files_from_path` yields `None` on an empty namespace,
and `for file in None` raises `TypeError` before any record is written. -/
def supersideRun (fromstring : String → Option HtmlTree) (store : S3Store) (now : Nat)
    (company : String) (coll : List Item) : List Item × Option PyErr :=
  match list_files_from_path store ("pages/" ++ company) with
  | none => (coll, some .typeError)
  | some files => runLoop fromstring store now files coll

/-- The number of records in a collection whose `url` field equals `u` (the
documents the Mongo filter `{"url": u}` matches). -/
def urlCount (u : Option Json) (coll : List Item) : Nat :=
  coll.countP (fun d => optJsonBeq d.url u)

/-- The collection invariant of the Document Store: at most one record per
`url` value. -/
def AtMostOnePerUrl (coll : List Item) : Prop :=
  ∀ u, urlCount u coll ≤ 1

/-- The number of objects stored under `key` (a well-formed bucket has at
most one). -/
def keyCount (store : S3Store) (key : String) : Nat :=
  store.countP (fun kv => decide (kv.1 = key))

/-! ## General lemmas -/

mutual

theorem Json.beq_iff_eq : ∀ a b : Json, Json.beq a b = true ↔ a = b
  | .null, b => by cases b <;> simp [Json.beq]
  | .bool x, b => by cases b <;> simp [Json.beq]
  | .num x, b => by cases b <;> simp [Json.beq]
  | .str x, b => by cases b <;> simp [Json.beq]
  | .arr xs, b => by
    cases b <;> simp [Json.beq]
    exact Json.beqL_iff_eq xs _
  | .obj kvs, b => by
    cases b <;> simp [Json.beq]
    exact Json.beqKL_iff_eq kvs _

theorem Json.beqL_iff_eq : ∀ xs ys : List Json, Json.beqL xs ys = true ↔ xs = ys
  | [], ys => by cases ys <;> simp [Json.beqL]
  | x :: xs, ys => by
    cases ys with
    | nil => simp [Json.beqL]
    | cons y ys => simp [Json.beqL, Json.beq_iff_eq x y, Json.beqL_iff_eq xs ys]

theorem Json.beqKL_iff_eq :
    ∀ kvs lws : List (String × Json), Json.beqKL kvs lws = true ↔ kvs = lws
  | [], lws => by cases lws <;> simp [Json.beqKL]
  | (k, v) :: kvs, lws => by
    cases lws with
    | nil => simp [Json.beqKL]
    | cons lw lws =>
      cases lw with
      | mk l w =>
        simp [Json.beqKL, Json.beq_iff_eq v w, Json.beqKL_iff_eq kvs lws, and_assoc]

end

/-- `optJsonBeq` decides equality of optional JSON values. -/
theorem optJsonBeq_iff_eq (a b : Option Json) : optJsonBeq a b = true ↔ a = b := by
  cases a <;> cases b <;> simp [optJsonBeq, Json.beq_iff_eq]

/-- `optJsonBeq` is reflexive. -/
theorem optJsonBeq_refl (a : Option Json) : optJsonBeq a a = true :=
  (optJsonBeq_iff_eq a a).mpr rfl

/-- A digit character differs from any non-digit character. -/
theorem digit_ne {c : Char} (d : Char) (hc : c.isDigit = true) (hd : d.isDigit = false) :
    c ≠ d := by
  intro h
  rw [h, hd] at hc
  cases hc

/-- Digit characters are not JSON whitespace. -/
theorem digit_not_ws {c : Char} (hc : c.isDigit = true) : wsChar c = false := by
  have h1 : c ≠ ' ' := digit_ne _ hc (by decide)
  have h2 : c ≠ '\t' := digit_ne _ hc (by decide)
  have h3 : c ≠ '\n' := digit_ne _ hc (by decide)
  have h4 : c ≠ '\r' := digit_ne _ hc (by decide)
  simp [wsChar, h1, h2, h3, h4]

/-- Possible first characters of encoded values are not whitespace. -/
theorem isEncHead_not_ws {c : Char} (h : isEncHead c = true) : wsChar c = false := by
  simp only [isEncHead, Bool.or_eq_true, decide_eq_true_eq] at h
  rcases h with ((((((h | h) | h) | h) | h) | h) | h) | h
  · exact h ▸ by decide
  · exact h ▸ by decide
  · exact h ▸ by decide
  · exact h ▸ by decide
  · exact h ▸ by decide
  · exact h ▸ by decide
  · exact h ▸ by decide
  · exact digit_not_ws h

/-- Possible first characters of encoded values are neither `]` nor the
closing brace. -/
theorem isEncHead_ne_closers {c : Char} (h : isEncHead c = true) :
    c ≠ ']' ∧ c ≠ '\x7d' := by
  constructor <;> intro hc <;> subst hc <;> exact absurd h (by decide)

/-- `skipWs` leaves a list whose head is not whitespace unchanged. -/
theorem skipWs_not_ws {c : Char} (cs : List Char) (h : wsChar c = false) :
    skipWs (c :: cs) = c :: cs := by
  simp [skipWs, h]

/-- `parseVal` ignores one leading whitespace character. -/
theorem parseVal_ws (fuel : Nat) (c : Char) (cs : List Char) (h : wsChar c = true) :
    parseVal fuel (c :: cs) = parseVal fuel cs := by
  cases fuel with
  | zero => rfl
  | succ fuel => simp only [parseVal, skipWs, h, if_true]

/-- `parseElems` ignores one leading whitespace character. -/
theorem parseElems_ws (fuel : Nat) (c : Char) (cs : List Char) (h : wsChar c = true) :
    parseElems fuel (c :: cs) = parseElems fuel cs := by
  cases fuel with
  | zero => rfl
  | succ fuel => simp only [parseElems, parseVal_ws fuel c cs h]

/-- `parseMembers` ignores one leading whitespace character. -/
theorem parseMembers_ws (fuel : Nat) (c : Char) (cs : List Char) (h : wsChar c = true) :
    parseMembers fuel (c :: cs) = parseMembers fuel cs := by
  cases fuel with
  | zero => rfl
  | succ fuel => simp only [parseMembers, skipWs, h, if_true]

/-- Parsing the encoding of a string body recovers it exactly. -/
theorem parseStr_encodeStr : ∀ (cs rest : List Char),
    parseStr (encodeStr cs ++ rest) = some (cs, rest)
  | [], rest => by
    rw [encodeStr, List.cons_append, List.nil_append, parseStr.eq_def]
    simp
  | c :: cs, rest => by
    by_cases h1 : c = '"'
    · subst h1
      have e1 : encodeStr ('"' :: cs) ++ rest = '\\' :: '"' :: (encodeStr cs ++ rest) := by
        simp [encodeStr]
      rw [e1, parseStr.eq_def]
      simp [escChar, parseStr_encodeStr cs rest]
    · by_cases h2 : c = '\\'
      · subst h2
        have e1 : encodeStr ('\\' :: cs) ++ rest = '\\' :: '\\' :: (encodeStr cs ++ rest) := by
          simp [encodeStr]
        rw [e1, parseStr.eq_def]
        simp [escChar, parseStr_encodeStr cs rest]
      · have e1 : encodeStr (c :: cs) ++ rest = c :: (encodeStr cs ++ rest) := by
          simp [encodeStr, h1, h2]
        rw [e1, parseStr.eq_def]
        simp [h1, h2, parseStr_encodeStr cs rest]

/-- `digitsOfPosAux` is independent of the fuel bound once it dominates the
argument. -/
theorem digitsOfPosAux_fuel : ∀ (n f1 f2 : Nat), n ≤ f1 → n ≤ f2 →
    digitsOfPosAux f1 n = digitsOfPosAux f2 n
  | 0, f1, f2, _, _ => by
    cases f1 <;> cases f2 <;> rfl
  | n + 1, f1, f2, h1, h2 => by
    cases f1 with
    | zero => omega
    | succ a =>
      cases f2 with
      | zero => omega
      | succ b =>
        rw [digitsOfPosAux, digitsOfPosAux]
        have hq : (n + 1) / 10 ≤ n := by omega
        rw [digitsOfPosAux_fuel ((n + 1) / 10) a b (by omega) (by omega)]

/-- The defining recursion of `digitsOfPos` for positive arguments. -/
theorem digitsOfPos_succ (n : Nat) (h : 0 < n) :
    digitsOfPos n = digitsOfPos (n / 10) ++ [dchar (n % 10)] := by
  cases n with
  | zero => omega
  | succ m =>
    have h1 : digitsOfPos (m + 1) =
        digitsOfPosAux m ((m + 1) / 10) ++ [dchar ((m + 1) % 10)] := by
      rw [digitsOfPos, digitsOfPosAux]
    rw [h1, digitsOfPos,
      digitsOfPosAux_fuel ((m + 1) / 10) m ((m + 1) / 10) (by omega) le_rfl]

/-- Digit characters have the expected code points. -/
theorem dchar_isDigit (r : Nat) (h : r < 10) : (dchar r).isDigit = true := by
  interval_cases r <;> decide

/-- `dchar` inverts to its digit value. -/
theorem dchar_toNat (r : Nat) (h : r < 10) : (dchar r).toNat - 48 = r := by
  interval_cases r <;> decide

/-- Every character of `digitsOfPos n` is a digit. -/
theorem digitsOfPos_digits (n : Nat) : ∀ c ∈ digitsOfPos n, c.isDigit = true := by
  induction n using Nat.strong_induction_on with
  | _ n ih =>
    cases Nat.eq_zero_or_pos n with
    | inl h0 => subst h0; intro c hc; cases hc
    | inr hpos =>
      rw [digitsOfPos_succ n hpos]
      intro c hc
      rcases List.mem_append.1 hc with hl | hr
      · exact ih (n / 10) (by omega) c hl
      · rcases List.mem_singleton.1 hr with rfl
        exact dchar_isDigit _ (Nat.mod_lt _ (by omega))

/-- `digitsOfPos` of a positive number is non-empty. -/
theorem digitsOfPos_ne_nil (n : Nat) (h : 0 < n) : digitsOfPos n ≠ [] := by
  rw [digitsOfPos_succ n h]
  simp

/-- Reading digits past their end stops at a non-digit. -/
theorem readDigits_stop (rest : List Char) (a : Nat) (h : noLeadDigit rest = true) :
    readDigits rest a = (a, rest) := by
  cases rest with
  | nil => rfl
  | cons c cs =>
    simp only [noLeadDigit, Bool.not_eq_true'] at h
    rw [readDigits.eq_def]
    simp [h]

/-- Reading the digits of `n` accumulates its value positionally. -/
theorem readDigits_digitsOfPos : ∀ (n : Nat) (rest : List Char) (a : Nat),
    readDigits (digitsOfPos n ++ rest) a =
      readDigits rest (a * 10 ^ (digitsOfPos n).length + n) := by
  intro n
  induction n using Nat.strong_induction_on with
  | _ n ih =>
    intro rest a
    cases Nat.eq_zero_or_pos n with
    | inl h0 => subst h0; simp [digitsOfPos, digitsOfPosAux]
    | inr hpos =>
      rw [digitsOfPos_succ n hpos, List.append_assoc, List.singleton_append,
        ih (n / 10) (by omega)]
      have hlt : n % 10 < 10 := Nat.mod_lt _ (by omega)
      rw [readDigits.eq_def]
      simp only [dchar_isDigit _ hlt, if_true, dchar_toNat _ hlt]
      have hlen : (digitsOfPos (n / 10) ++ [dchar (n % 10)]).length =
          (digitsOfPos (n / 10)).length + 1 := by simp
      rw [hlen, pow_succ, ← mul_assoc]
      have harith : (a * 10 ^ (digitsOfPos (n / 10)).length + n / 10) * 10 + n % 10 =
          a * 10 ^ (digitsOfPos (n / 10)).length * 10 + n := by
        generalize a * 10 ^ (digitsOfPos (n / 10)).length = q
        omega
      rw [harith]

/-- `natToChars n` is never empty. -/
theorem natToChars_ne_nil (n : Nat) : natToChars n ≠ [] := by
  rw [natToChars]
  split
  · simp
  · exact digitsOfPos_ne_nil n (by omega)

/-- Every character of `natToChars n` is a digit. -/
theorem natToChars_digits (n : Nat) : ∀ c ∈ natToChars n, c.isDigit = true := by
  rw [natToChars]
  split
  · intro c hc; rcases List.mem_singleton.1 hc with rfl; decide
  · exact digitsOfPos_digits n

/-- Reading the decimal rendering of `n` recovers `n`. -/
theorem readDigits_natToChars (n : Nat) (rest : List Char) (h : noLeadDigit rest = true) :
    readDigits (natToChars n ++ rest) 0 = (n, rest) := by
  rw [natToChars]
  split
  · next h0 =>
    subst h0
    rw [List.singleton_append, readDigits.eq_def]
    simp [readDigits_stop rest 0 h]
  · next h0 =>
    rw [readDigits_digitsOfPos n rest 0, readDigits_stop rest _ h]
    simp

/-- Parsing the decimal rendering of a natural number recovers it. -/
theorem parseNum_natToChars (n : Nat) (rest : List Char) (h : noLeadDigit rest = true) :
    parseNum (natToChars n ++ rest) = some ((n : Int), rest) := by
  obtain ⟨d, ds, hds⟩ := List.exists_cons_of_ne_nil (natToChars_ne_nil n)
  have hd : d.isDigit = true := natToChars_digits n d (by rw [hds]; exact List.mem_cons_self d ds)
  have hne : d ≠ '-' := digit_ne '-' hd (by decide)
  rw [hds, List.cons_append, parseNum.eq_def]
  simp only [hne, if_false, hd, if_true]
  rw [← List.cons_append, ← hds, readDigits_natToChars n rest h]

/-- Parsing the decimal rendering of an integer recovers it. -/
theorem parseNum_encodeInt (n : Int) (rest : List Char) (h : noLeadDigit rest = true) :
    parseNum (encodeInt n ++ rest) = some (n, rest) := by
  rw [encodeInt]
  split
  · next hneg =>
    obtain ⟨d, ds, hds⟩ := List.exists_cons_of_ne_nil (natToChars_ne_nil n.natAbs)
    have hd : d.isDigit = true :=
      natToChars_digits n.natAbs d (by rw [hds]; exact List.mem_cons_self d ds)
    rw [List.cons_append, parseNum.eq_def]
    simp only [if_true]
    rw [hds, List.cons_append]
    simp only [hd, if_true]
    rw [← List.cons_append, ← hds, readDigits_natToChars n.natAbs rest h]
    have heq : -((n.natAbs : Nat) : Int) = n := by omega
    rw [heq]
  · next hpos =>
    rw [parseNum_natToChars n.toNat rest h]
    have heq : ((n.toNat : Nat) : Int) = n := by omega
    rw [heq]

/-- An encoded integer starts with a minus sign or a digit. -/
theorem encodeInt_head (n : Int) :
    ∃ c cs, encodeInt n = c :: cs ∧ (c = '-' ∨ c.isDigit = true) := by
  rw [encodeInt]
  split
  · exact ⟨'-', _, rfl, Or.inl rfl⟩
  · obtain ⟨d, ds, hds⟩ := List.exists_cons_of_ne_nil (natToChars_ne_nil n.toNat)
    exact ⟨d, ds, hds,
      Or.inr (natToChars_digits _ d (hds ▸ List.mem_cons_self d ds))⟩

/-- A minus sign or digit differs from every keyword, quote and bracket
opener. -/
theorem minus_or_digit_ne {c : Char} (hd : c = '-' ∨ c.isDigit = true) :
    c ≠ 'n' ∧ c ≠ 't' ∧ c ≠ 'f' ∧ c ≠ '"' ∧ c ≠ '[' ∧ c ≠ '\x7b' := by
  rcases hd with rfl | hd
  · refine ⟨by decide, by decide, by decide, by decide, by decide, by decide⟩
  · exact ⟨digit_ne _ hd (by decide), digit_ne _ hd (by decide), digit_ne _ hd (by decide),
      digit_ne _ hd (by decide), digit_ne _ hd (by decide), digit_ne _ hd (by decide)⟩

/-- Every encoded JSON value starts with a recognisable head character. -/
theorem encodeJ_head (j : Json) : ∃ c cs, encodeJ j = c :: cs ∧ isEncHead c = true := by
  cases j with
  | null => exact ⟨'n', _, rfl, by decide⟩
  | bool b =>
    cases b with
    | false => exact ⟨'f', _, rfl, by decide⟩
    | true => exact ⟨'t', _, rfl, by decide⟩
  | num n =>
    obtain ⟨c, cs, hc, hd⟩ := encodeInt_head n
    refine ⟨c, cs, hc, ?_⟩
    rcases hd with rfl | hd
    · decide
    · simp [isEncHead, hd]
  | str s => exact ⟨'"', _, rfl, by decide⟩
  | arr xs => exact ⟨'[', _, rfl, by decide⟩
  | obj kvs => exact ⟨'\x7b', _, rfl, by decide⟩

/-- `skipWs` leaves an encoded value in place. -/
theorem skipWs_encodeJ (j : Json) (rest : List Char) :
    skipWs (encodeJ j ++ rest) = encodeJ j ++ rest := by
  obtain ⟨c, cs, hc, hh⟩ := encodeJ_head j
  rw [hc, List.cons_append, skipWs_not_ws _ (isEncHead_not_ws hh)]

/-- The parser recovers every encoded value, list of array elements and list
of object members, given fuel dominating the value's size and a remainder
that does not begin with a digit. -/
theorem parse_encode (fuel : Nat) :
    (∀ (j : Json) (rest : List Char), sizeJ j ≤ fuel → noLeadDigit rest = true →
      parseVal fuel (encodeJ j ++ rest) = some (j, rest))
  ∧ (∀ (xs : List Json) (rest : List Char), xs ≠ [] → sizeL xs ≤ fuel →
      noLeadDigit rest = true →
      parseElems fuel (encodeElems xs ++ rest) = some (xs, rest))
  ∧ (∀ (kvs : List (String × Json)) (rest : List Char), kvs ≠ [] → sizeKL kvs ≤ fuel →
      noLeadDigit rest = true →
      parseMembers fuel (encodeMembers kvs ++ rest) = some (kvs, rest)) := by
  induction fuel with
  | zero =>
    refine ⟨?_, ?_, ?_⟩
    · intro j rest hsz _
      cases j <;> simp [sizeJ] at hsz
    · intro xs rest hne hsz _
      cases xs with
      | nil => exact absurd rfl hne
      | cons x t => simp [sizeL] at hsz
    · intro kvs rest hne hsz _
      cases kvs with
      | nil => exact absurd rfl hne
      | cons kv t => obtain ⟨k, v⟩ := kv; simp [sizeKL] at hsz
  | succ fuel ih =>
    obtain ⟨ihV, ihE, ihM⟩ := ih
    refine ⟨?_, ?_, ?_⟩
    · intro j rest hsz hnd
      cases j with
      | null =>
        show parseVal (fuel + 1) ('n' :: 'u' :: 'l' :: 'l' :: rest) = _
        rw [parseVal.eq_def]
        simp [skipWs, wsChar]
      | bool b =>
        cases b with
        | false =>
          show parseVal (fuel + 1) ('f' :: 'a' :: 'l' :: 's' :: 'e' :: rest) = _
          rw [parseVal.eq_def]
          simp [skipWs, wsChar]
        | true =>
          show parseVal (fuel + 1) ('t' :: 'r' :: 'u' :: 'e' :: rest) = _
          rw [parseVal.eq_def]
          simp [skipWs, wsChar]
      | num n =>
        obtain ⟨c, cs, hc, hd⟩ := encodeInt_head n
        obtain ⟨h1, h2, h3, h4, h5, h6⟩ := minus_or_digit_ne hd
        have hw : wsChar c = false := by
          rcases hd with rfl | hd
          · decide
          · exact digit_not_ws hd
        have he : encodeJ (.num n) ++ rest = c :: (cs ++ rest) := by
          show encodeInt n ++ rest = _
          rw [hc, List.cons_append]
        rw [he, parseVal.eq_def]
        simp only [skipWs_not_ws _ hw, h1, h2, h3, h4, h5, h6, if_false]
        rw [← List.cons_append, ← hc, parseNum_encodeInt n rest hnd]
        rfl
      | str s =>
        obtain ⟨sd⟩ := s
        have he : encodeJ (.str ⟨sd⟩) ++ rest = '"' :: (encodeStr sd ++ rest) := rfl
        rw [he, parseVal.eq_def]
        simp [skipWs, wsChar, parseStr_encodeStr sd rest]
      | arr xs =>
        cases xs with
        | nil =>
          show parseVal (fuel + 1) ('[' :: ']' :: rest) = _
          rw [parseVal.eq_def]
          simp [skipWs, wsChar]
        | cons x t =>
          have hbranch : parseVal (fuel + 1) ('[' :: (encodeElems (x :: t) ++ rest)) =
              (if (skipWs (encodeElems (x :: t) ++ rest)).head? = some ']' then
                some (.arr [], (skipWs (encodeElems (x :: t) ++ rest)).tail)
               else (parseElems fuel (skipWs (encodeElems (x :: t) ++ rest))).map
                 (fun p => (.arr p.1, p.2))) := rfl
          have he : encodeJ (.arr (x :: t)) ++ rest = '[' :: (encodeElems (x :: t) ++ rest) := by
            show ('[' :: encodeElems (x :: t)) ++ rest = _
            rw [List.cons_append]
          obtain ⟨R, hR⟩ : ∃ R, encodeElems (x :: t) = encodeJ x ++ R := by
            cases t with
            | nil => exact ⟨[']'], rfl⟩
            | cons m t' => exact ⟨',' :: ' ' :: encodeElems (m :: t'), rfl⟩
          obtain ⟨c0, cs0, hc0, hh0⟩ := encodeJ_head x
          have hsk : skipWs (encodeElems (x :: t) ++ rest) = encodeElems (x :: t) ++ rest := by
            rw [hR, List.append_assoc, skipWs_encodeJ]
          have hhead : (encodeElems (x :: t) ++ rest).head? = some c0 := by
            rw [hR, hc0]
            rfl
          rw [he, hbranch, hsk, hhead]
          rw [if_neg (by simp [(isEncHead_ne_closers hh0).1])]
          have hszL : sizeL (x :: t) ≤ fuel := by
            have : sizeJ (.arr (x :: t)) = 1 + sizeL (x :: t) := rfl
            omega
          rw [ihE (x :: t) rest (by simp) hszL hnd]
          rfl
      | obj kvs =>
        cases kvs with
        | nil =>
          show parseVal (fuel + 1) ('\x7b' :: '\x7d' :: rest) = _
          rw [parseVal.eq_def]
          simp [skipWs, wsChar]
        | cons kv t =>
          obtain ⟨k, v⟩ := kv
          have hbranch : parseVal (fuel + 1) ('\x7b' :: (encodeMembers ((k, v) :: t) ++ rest)) =
              (if (skipWs (encodeMembers ((k, v) :: t) ++ rest)).head? = some '\x7d' then
                some (.obj [], (skipWs (encodeMembers ((k, v) :: t) ++ rest)).tail)
               else (parseMembers fuel (skipWs (encodeMembers ((k, v) :: t) ++ rest))).map
                 (fun p => (.obj p.1, p.2))) := rfl
          have he : encodeJ (.obj ((k, v) :: t)) ++ rest =
              '\x7b' :: (encodeMembers ((k, v) :: t) ++ rest) := by
            show ('\x7b' :: encodeMembers ((k, v) :: t)) ++ rest = _
            rw [List.cons_append]
          obtain ⟨R, hR⟩ : ∃ R, encodeMembers ((k, v) :: t) = '"' :: R := by
            cases t with
            | nil => exact ⟨_, rfl⟩
            | cons m t' => exact ⟨_, rfl⟩
          have hsk : skipWs (encodeMembers ((k, v) :: t) ++ rest) =
              encodeMembers ((k, v) :: t) ++ rest := by
            rw [hR, List.cons_append, skipWs_not_ws _ (by decide)]
          have hhead : (encodeMembers ((k, v) :: t) ++ rest).head? = some '"' := by
            rw [hR]
            rfl
          rw [he, hbranch, hsk, hhead]
          rw [if_neg (by decide)]
          have hszM : sizeKL ((k, v) :: t) ≤ fuel := by
            have : sizeJ (.obj ((k, v) :: t)) = 1 + sizeKL ((k, v) :: t) := rfl
            omega
          rw [ihM ((k, v) :: t) rest (by simp) hszM hnd]
          rfl
    · intro xs rest hne hsz hnd
      cases xs with
      | nil => exact absurd rfl hne
      | cons x t =>
        have hszx : sizeJ x ≤ fuel := by
          have : sizeL (x :: t) = 1 + max (sizeJ x) (sizeL t) := rfl
          omega
        cases t with
        | nil =>
          have he : encodeElems [x] ++ rest = encodeJ x ++ (']' :: rest) := by
            show (encodeJ x ++ [']']) ++ rest = _
            rw [List.append_assoc]
            rfl
          rw [he, parseElems.eq_def]
          simp only [ihV x (']' :: rest) hszx rfl]
          simp [skipWs, wsChar]
        | cons m t' =>
          have he : encodeElems (x :: m :: t') ++ rest =
              encodeJ x ++ (',' :: ' ' :: (encodeElems (m :: t') ++ rest)) := by
            show (encodeJ x ++ ',' :: ' ' :: encodeElems (m :: t')) ++ rest = _
            rw [List.append_assoc]
            rfl
          have hszt : sizeL (m :: t') ≤ fuel := by
            have : sizeL (x :: m :: t') = 1 + max (sizeJ x) (sizeL (m :: t')) := rfl
            omega
          rw [he, parseElems.eq_def]
          simp [ihV x (',' :: ' ' :: (encodeElems (m :: t') ++ rest)) hszx rfl,
            skipWs, wsChar, parseElems_ws fuel ' ' (encodeElems (m :: t') ++ rest) rfl,
            ihE (m :: t') rest (by simp) hszt hnd]
    · intro kvs rest hne hsz hnd
      cases kvs with
      | nil => exact absurd rfl hne
      | cons kv t =>
        obtain ⟨k, v⟩ := kv
        obtain ⟨kd⟩ := k
        have hszv : sizeJ v ≤ fuel := by
          have : sizeKL ((⟨kd⟩, v) :: t) = 1 + max (sizeJ v) (sizeKL t) := rfl
          omega
        cases t with
        | nil =>
          have he : encodeMembers [(⟨kd⟩, v)] ++ rest =
              '"' :: (encodeStr kd ++ (':' :: ' ' :: (encodeJ v ++ ('\x7d' :: rest)))) := by
            show ('"' :: encodeStr kd ++ ':' :: ' ' :: encodeJ v ++ ['\x7d']) ++ rest = _
            simp [List.append_assoc]
          rw [he, parseMembers.eq_def]
          simp [parseStr_encodeStr kd (':' :: ' ' :: (encodeJ v ++ ('\x7d' :: rest))),
            parseVal_ws fuel ' ' (encodeJ v ++ ('\x7d' :: rest)) rfl,
            ihV v ('\x7d' :: rest) hszv rfl, skipWs, wsChar]
        | cons m t' =>
          have he : encodeMembers ((⟨kd⟩, v) :: m :: t') ++ rest =
              '"' :: (encodeStr kd ++ (':' :: ' ' ::
                (encodeJ v ++ (',' :: ' ' :: (encodeMembers (m :: t') ++ rest))))) := by
            show ('"' :: encodeStr kd ++ ':' :: ' ' :: encodeJ v ++
                ',' :: ' ' :: encodeMembers (m :: t')) ++ rest = _
            simp [List.append_assoc]
          have hszt : sizeKL (m :: t') ≤ fuel := by
            obtain ⟨km, vm⟩ := m
            have : sizeKL ((⟨kd⟩, v) :: (km, vm) :: t') =
                1 + max (sizeJ v) (sizeKL ((km, vm) :: t')) := rfl
            omega
          rw [he, parseMembers.eq_def]
          simp [parseStr_encodeStr kd
              (':' :: ' ' :: (encodeJ v ++ (',' :: ' ' :: (encodeMembers (m :: t') ++ rest)))),
            parseVal_ws fuel ' '
              (encodeJ v ++ (',' :: ' ' :: (encodeMembers (m :: t') ++ rest))) rfl,
            ihV v (',' :: ' ' :: (encodeMembers (m :: t') ++ rest)) hszv rfl,
            skipWs, wsChar, parseMembers_ws fuel ' ' (encodeMembers (m :: t') ++ rest) rfl,
            ihM (m :: t') rest (by simp) hszt hnd]

mutual

theorem sizeJ_le : ∀ j : Json, sizeJ j ≤ (encodeJ j).length + 1
  | .null => by simp [sizeJ]
  | .bool b => by cases b <;> simp [sizeJ]
  | .num n => by simp [sizeJ]
  | .str s => by simp [sizeJ]
  | .arr xs => by
    have h := sizeL_le xs
    have e1 : sizeJ (.arr xs) = 1 + sizeL xs := rfl
    have e2 : encodeJ (.arr xs) = '[' :: encodeElems xs := rfl
    rw [e1, e2, List.length_cons]
    omega
  | .obj kvs => by
    have h := sizeKL_le kvs
    have e1 : sizeJ (.obj kvs) = 1 + sizeKL kvs := rfl
    have e2 : encodeJ (.obj kvs) = '\x7b' :: encodeMembers kvs := rfl
    rw [e1, e2, List.length_cons]
    omega

theorem sizeL_le : ∀ xs : List Json, sizeL xs ≤ (encodeElems xs).length + 1
  | [] => by simp [sizeL]
  | [x] => by
    have h := sizeJ_le x
    have e1 : sizeL [x] = 1 + max (sizeJ x) 0 := rfl
    have e2 : encodeElems [x] = encodeJ x ++ [']'] := rfl
    rw [e1, e2, List.length_append, List.length_cons]
    omega
  | x :: m :: t => by
    have h1 := sizeJ_le x
    have h2 := sizeL_le (m :: t)
    have e1 : sizeL (x :: m :: t) = 1 + max (sizeJ x) (sizeL (m :: t)) := rfl
    have e2 : encodeElems (x :: m :: t) = encodeJ x ++ ',' :: ' ' :: encodeElems (m :: t) := rfl
    rw [e1, e2, List.length_append, List.length_cons, List.length_cons]
    omega

theorem sizeKL_le : ∀ kvs : List (String × Json), sizeKL kvs ≤ (encodeMembers kvs).length + 1
  | [] => by simp [sizeKL]
  | [(k, v)] => by
    have h := sizeJ_le v
    have e1 : sizeKL [(k, v)] = 1 + max (sizeJ v) 0 := rfl
    have e2 : encodeMembers [(k, v)] =
        '"' :: encodeStr k.data ++ ':' :: ' ' :: encodeJ v ++ ['\x7d'] := rfl
    rw [e1, e2]
    simp only [List.length_append, List.length_cons]
    omega
  | (k, v) :: m :: t => by
    have h1 := sizeJ_le v
    have h2 := sizeKL_le (m :: t)
    have e1 : sizeKL ((k, v) :: m :: t) = 1 + max (sizeJ v) (sizeKL (m :: t)) := rfl
    have e2 : encodeMembers ((k, v) :: m :: t) =
        '"' :: encodeStr k.data ++ ':' :: ' ' :: encodeJ v ++ ',' :: ' ' :: encodeMembers (m :: t) := rfl
    rw [e1, e2]
    simp only [List.length_append, List.length_cons]
    omega

end

/-- `json.loads` inverts `json.dumps` on every modelled JSON value. -/
theorem loads_dumps (j : Json) : loads (dumps j) = some j := by
  have h := (parse_encode ((encodeJ j).length + 1)).1 j [] (sizeJ_le j) rfl
  rw [List.append_nil] at h
  have hd : (dumps j).data = encodeJ j := rfl
  rw [loads, hd, h]
  rfl

/-- Reading back the key just written yields the body just stored. -/
theorem s3Get_put_self : ∀ (store : S3Store) (key body : String),
    s3Get (put_object store key body) key = some body
  | [], key, body => by simp [put_object, s3Get]
  | (k, v) :: rest, key, body => by
    by_cases h : k = key
    · simp [put_object, s3Get, h]
    · simp [put_object, s3Get, h, s3Get_put_self rest key body]

/-- Writing one key leaves every other key's value unchanged. -/
theorem s3Get_put_other : ∀ (store : S3Store) (key body k2 : String), k2 ≠ key →
    s3Get (put_object store key body) k2 = s3Get store k2
  | [], key, body, k2, hne => by
    simp [put_object, s3Get, Ne.symm hne]
  | (k, v) :: rest, key, body, k2, hne => by
    by_cases h : k = key
    · subst h
      simp [put_object, s3Get, Ne.symm hne]
    · simp only [put_object, if_neg h, s3Get]
      by_cases h2 : k = k2
      · simp [h2]
      · simp [h2, s3Get_put_other rest key body k2 hne]

/-- One object's contribution to `keyCount`. -/
theorem keyCount_cons (k v key : String) (rest : S3Store) :
    keyCount ((k, v) :: rest) key = keyCount rest key + if k = key then 1 else 0 := by
  simp [keyCount, List.countP_cons]

/-- A write to a key present at most once leaves it present exactly once. -/
theorem keyCount_put_self : ∀ (store : S3Store) (key body : String),
    keyCount store key ≤ 1 → keyCount (put_object store key body) key = 1
  | [], key, body, _ => by simp [put_object, keyCount]
  | (k, v) :: rest, key, body, h => by
    rw [keyCount_cons] at h
    by_cases hk : k = key
    · rw [show put_object ((k, v) :: rest) key body = (key, body) :: rest from by
        simp [put_object, hk]]
      rw [keyCount_cons]
      simp [hk] at h ⊢
      omega
    · rw [show put_object ((k, v) :: rest) key body = (k, v) :: put_object rest key body from by
        simp [put_object, hk]]
      rw [keyCount_cons]
      simp only [if_neg hk] at h ⊢
      rw [keyCount_put_self rest key body (by omega)]

/-- One record's contribution to `urlCount`. -/
theorem urlCount_cons (d : Item) (ds : List Item) (u : Option Json) :
    urlCount u (d :: ds) = urlCount u ds + if optJsonBeq d.url u then 1 else 0 := by
  simp [urlCount, List.countP_cons]

/-- Upserting an item makes its `url` present exactly once if it was absent,
and keeps its multiplicity otherwise. -/
theorem urlCount_replace_one_self : ∀ (coll : List Item) (item : Item),
    urlCount item.url (replace_one coll item) =
      if urlCount item.url coll = 0 then 1 else urlCount item.url coll
  | [], item => by
    simp [replace_one, urlCount, List.countP_cons, optJsonBeq_refl]
  | d :: ds, item => by
    by_cases h : optJsonBeq d.url item.url = true
    · simp [replace_one, h, urlCount_cons, optJsonBeq_refl]
    · simp only [replace_one, h, if_false, Bool.false_eq_true]
      rw [urlCount_cons, urlCount_cons, urlCount_replace_one_self ds item]
      simp only [h, if_false, Bool.false_eq_true, Nat.add_zero]

/-- Upserting an item does not change the count of any other `url`. -/
theorem urlCount_replace_one_other : ∀ (coll : List Item) (item : Item) (u : Option Json),
    optJsonBeq item.url u = false →
    urlCount u (replace_one coll item) = urlCount u coll
  | [], item, u, hne => by simp [replace_one, urlCount_cons, urlCount, hne]
  | d :: ds, item, u, hne => by
    by_cases h : optJsonBeq d.url item.url = true
    · have hd : d.url = item.url := (optJsonBeq_iff_eq _ _).1 h
      simp [replace_one, h, urlCount_cons, hne, hd, optJsonBeq_refl]
    · simp [replace_one, h, urlCount_cons, urlCount_replace_one_other ds item u hne]

/-- Upserting preserves the at-most-one-record-per-url invariant. -/
theorem atMostOne_replace_one {coll : List Item} (h : AtMostOnePerUrl coll) (item : Item) :
    AtMostOnePerUrl (replace_one coll item) := by
  intro u
  by_cases hu : optJsonBeq item.url u = true
  · have heq : item.url = u := (optJsonBeq_iff_eq _ _).1 hu
    subst heq
    rw [urlCount_replace_one_self coll item]
    have := h item.url
    split <;> omega
  · rw [urlCount_replace_one_other coll item u (by simpa using hu)]
    exact h u

/-- Under the invariant, an upsert leaves exactly one record with its url. -/
theorem urlCount_replace_one_eq_one {coll : List Item} (h : AtMostOnePerUrl coll)
    (item : Item) : urlCount item.url (replace_one coll item) = 1 := by
  rw [urlCount_replace_one_self coll item]
  have := h item.url
  split <;> omega

/-- Any sequence of upserts preserves the invariant. -/
theorem atMostOne_foldl : ∀ (items coll : List Item), AtMostOnePerUrl coll →
    AtMostOnePerUrl (items.foldl replace_one coll)
  | [], _, h => h
  | x :: xs, coll, h => by
    rw [List.foldl_cons]
    exact atMostOne_foldl xs _ (atMostOne_replace_one h x)

/-- A url present exactly once stays present exactly once under upserts. -/
theorem urlCount_foldl_keep : ∀ (items coll : List Item) (u : Option Json),
    AtMostOnePerUrl coll → urlCount u coll = 1 →
    urlCount u (items.foldl replace_one coll) = 1
  | [], _, _, _, h1 => h1
  | x :: xs, coll, u, ham, h1 => by
    rw [List.foldl_cons]
    by_cases hx : optJsonBeq x.url u = true
    · have hxu : x.url = u := (optJsonBeq_iff_eq _ _).1 hx
      refine urlCount_foldl_keep xs _ u (atMostOne_replace_one ham x) ?_
      rw [← hxu]
      exact urlCount_replace_one_eq_one ham x
    · refine urlCount_foldl_keep xs _ u (atMostOne_replace_one ham x) ?_
      rw [urlCount_replace_one_other coll x u (by simpa using hx)]
      exact h1

/-- After upserting a batch, every batch url is present exactly once. -/
theorem urlCount_foldl_mem : ∀ (items coll : List Item), AtMostOnePerUrl coll →
    ∀ x ∈ items, urlCount x.url (items.foldl replace_one coll) = 1
  | [], _, _, x, hx => absurd hx (List.not_mem_nil x)
  | y :: ys, coll, ham, x, hx => by
    rw [List.foldl_cons]
    rcases List.mem_cons.1 hx with rfl | hmem
    · exact urlCount_foldl_keep ys _ x.url (atMostOne_replace_one ham x)
        (urlCount_replace_one_eq_one ham x)
    · exact urlCount_foldl_mem ys _ (atMostOne_replace_one ham y) x hmem

/-- A url present after an upsert was the upserted url or was present
before. -/
theorem mem_url_replace_one : ∀ (coll : List Item) (item : Item) (u : Option Json),
    u ∈ (replace_one coll item).map (fun d => d.url) →
    u = item.url ∨ u ∈ coll.map (fun d => d.url)
  | [], item, u, h => by
    rw [show replace_one [] item = [item] from rfl] at h
    rcases List.mem_map.1 h with ⟨a, ha, hau⟩
    rcases List.mem_singleton.1 ha with rfl
    exact Or.inl hau.symm
  | d :: ds, item, u, h => by
    by_cases hd : optJsonBeq d.url item.url = true
    · rw [show replace_one (d :: ds) item = item :: ds from by simp [replace_one, hd]] at h
      rcases List.mem_map.1 h with ⟨a, ha, hau⟩
      rcases List.mem_cons.1 ha with rfl | ha2
      · exact Or.inl hau.symm
      · exact Or.inr (List.mem_map.2 ⟨a, List.mem_cons_of_mem _ ha2, hau⟩)
    · rw [show replace_one (d :: ds) item = d :: replace_one ds item from by
        simp [replace_one, hd]] at h
      rcases List.mem_map.1 h with ⟨a, ha, hau⟩
      rcases List.mem_cons.1 ha with rfl | ha2
      · exact Or.inr (List.mem_map.2 ⟨a, List.mem_cons_self _ _, hau⟩)
      · rcases mem_url_replace_one ds item u (List.mem_map.2 ⟨a, ha2, hau⟩) with h2 | h2
        · exact Or.inl h2
        · rcases List.mem_map.1 h2 with ⟨b, hb, hbu⟩
          exact Or.inr (List.mem_map.2 ⟨b, List.mem_cons_of_mem _ hb, hbu⟩)

/-- A url present after a batch of upserts was present before or belongs to
the batch. -/
theorem mem_url_foldl : ∀ (items coll : List Item) (u : Option Json),
    u ∈ (items.foldl replace_one coll).map (fun d => d.url) →
    u ∈ coll.map (fun d => d.url) ∨ u ∈ items.map (fun d => d.url)
  | [], _, _, h => Or.inl h
  | x :: xs, coll, u, h => by
    rw [List.foldl_cons] at h
    rcases mem_url_foldl xs _ u h with h1 | h1
    · rcases mem_url_replace_one coll x u h1 with h2 | h2
      · right
        simp [h2]
      · left
        exact h2
    · right
      exact List.mem_cons_of_mem _ h1

/-- A failing page aborts the loop at once: the error is reported, the
records already written are kept, and no further file is processed. -/
theorem runLoop_error (fromstring : String → Option HtmlTree) (store : S3Store) (now : Nat)
    (f : String) (fs : List String) (coll : List Item) (e : PyErr)
    (h : processFile fromstring store now f = .error e) :
    runLoop fromstring store now (f :: fs) coll = (coll, some e) := by
  rw [runLoop, h]

/-- When every listed file processes successfully, the loop upserts the
items in order and reports no error. -/
theorem runLoop_of_processAll (fromstring : String → Option HtmlTree) (store : S3Store)
    (now : Nat) : ∀ (files : List String) (items coll : List Item),
    processAll fromstring store now files = .ok items →
    runLoop fromstring store now files coll = (items.foldl replace_one coll, none)
  | [], items, coll, h => by
    obtain rfl : ([] : List Item) = items := by
      simpa [processAll] using h
    rfl
  | f :: fs, items, coll, h => by
    rw [processAll] at h
    cases hf : processFile fromstring store now f with
    | error e => rw [hf] at h; cases h
    | ok item =>
      rw [hf] at h
      cases hfs : processAll fromstring store now fs with
      | error e => rw [hfs] at h; cases h
      | ok rest =>
        rw [hfs] at h
        obtain rfl : item :: rest = items := by
          cases h
          rfl
        rw [runLoop, hf]
        show runLoop fromstring store now fs (replace_one coll item) = _
        rw [runLoop_of_processAll fromstring store now fs rest (replace_one coll item) hfs,
          List.foldl_cons]

/-- Successful processing produces one item per input file. -/
theorem processAll_length (fromstring : String → Option HtmlTree) (store : S3Store)
    (now : Nat) : ∀ (files : List String) (items : List Item),
    processAll fromstring store now files = .ok items →
    items.length = files.length
  | [], items, h => by
    obtain rfl : ([] : List Item) = items := by simpa [processAll] using h
    rfl
  | f :: fs, items, h => by
    rw [processAll] at h
    cases hf : processFile fromstring store now f with
    | error e => rw [hf] at h; cases h
    | ok item =>
      rw [hf] at h
      cases hfs : processAll fromstring store now fs with
      | error e => rw [hfs] at h; cases h
      | ok rest =>
        rw [hfs] at h
        obtain rfl : item :: rest = items := by
          cases h
          rfl
        simp [processAll_length fromstring store now fs rest hfs]

/-- Scanning a tag body: the first `>` after characters that are neither
`>` nor a newline closes the lazy match. -/
theorem tagEnd_append (tag rest : List Char) (h : ∀ c ∈ tag, c ≠ '>' ∧ c ≠ '\n') :
    tagEnd (tag ++ '>' :: rest) = some (tag.length + 1) := by
  induction tag with
  | nil => simp [tagEnd]
  | cons c cs ih =>
    have hc := h c (List.mem_cons_self c cs)
    rw [List.cons_append, tagEnd, if_neg hc.1, if_neg hc.2,
      ih (fun d hd => h d (List.mem_cons_of_mem c hd))]
    simp [Nat.add_comm]

/-- Characters other than `<` pass through `cleanhtmlAux` unchanged. -/
theorem cleanhtmlAux_no_lt : ∀ (text rest : List Char), (∀ c ∈ text, c ≠ '<') →
    cleanhtmlAux (text ++ rest) = text ++ cleanhtmlAux rest
  | [], rest, _ => by simp
  | c :: cs, rest, h => by
    have hc := h c (List.mem_cons_self c cs)
    rw [List.cons_append, cleanhtmlAux.eq_def]
    simp only [if_neg hc]
    rw [cleanhtmlAux_no_lt cs rest (fun d hd => h d (List.mem_cons_of_mem c hd))]
    simp

/-- Rebuilding a string from its characters is the identity. -/
theorem String.mk_data (s : String) : String.mk s.data = s := by
  cases s
  rfl

/-- The lazy tag-removal behaviour of `cleanhtml` on a well-formed
tag-delimited input: when the tag contains neither `>` nor a newline and the
text contains no `<`, both tag spans are removed and the text survives
unchanged. -/
theorem cleanhtml_wrapped (tag text : String)
    (htag : ∀ c ∈ tag.data, c ≠ '>' ∧ c ≠ '\n') (htext : ∀ c ∈ text.data, c ≠ '<') :
    cleanhtml ("<" ++ tag ++ ">" ++ text ++ "</" ++ tag ++ ">") = text := by
  have hdata : ("<" ++ tag ++ ">" ++ text ++ "</" ++ tag ++ ">").data =
      '<' :: (tag.data ++ '>' :: (text.data ++ '<' :: '/' :: (tag.data ++ ['>']))) := by
    simp [String.data_append]
  have hdrop : (tag.data ++ '>' :: (text.data ++ '<' :: '/' :: (tag.data ++ ['>']))).drop
      (tag.data.length + 1) = text.data ++ '<' :: '/' :: (tag.data ++ ['>']) := by
    have hsplit : tag.data ++ '>' :: (text.data ++ '<' :: '/' :: (tag.data ++ ['>'])) =
        (tag.data ++ ['>']) ++ (text.data ++ '<' :: '/' :: (tag.data ++ ['>'])) := by
      simp
    rw [hsplit, show tag.data.length + 1 = (tag.data ++ ['>']).length by simp,
      List.drop_left]
  have hinner : cleanhtmlAux ('<' :: '/' :: (tag.data ++ ['>'])) = [] := by
    have hte : tagEnd ('/' :: (tag.data ++ ['>'])) = some (tag.data.length + 2) := by
      rw [tagEnd, if_neg (by decide), if_neg (by decide),
        show tag.data ++ ['>'] = tag.data ++ '>' :: [] from rfl,
        tagEnd_append tag.data [] htag]
      rfl
    rw [cleanhtmlAux.eq_def]
    show (match tagEnd ('/' :: (tag.data ++ ['>'])) with
          | some n => cleanhtmlAux (List.drop n ('/' :: (tag.data ++ ['>'])))
          | none => '<' :: cleanhtmlAux ('/' :: (tag.data ++ ['>']))) = []
    rw [hte]
    show cleanhtmlAux (('/' :: (tag.data ++ ['>'])).drop (tag.data.length + 2)) = []
    have hnil : ('/' :: (tag.data ++ ['>'])).drop (tag.data.length + 2) = [] := by
      have hlen : ('/' :: (tag.data ++ ['>'])).length = tag.data.length + 2 := by simp
      rw [← hlen, List.drop_length]
    rw [hnil, cleanhtmlAux.eq_def]
  rw [cleanhtml, hdata, cleanhtmlAux.eq_def]
  show String.mk (match tagEnd (tag.data ++ '>' ::
        (text.data ++ '<' :: '/' :: (tag.data ++ ['>']))) with
      | some n => cleanhtmlAux (List.drop n (tag.data ++ '>' ::
          (text.data ++ '<' :: '/' :: (tag.data ++ ['>']))))
      | none => '<' :: cleanhtmlAux (tag.data ++ '>' ::
          (text.data ++ '<' :: '/' :: (tag.data ++ ['>'])))) = text
  rw [tagEnd_append tag.data _ htag]
  show String.mk (cleanhtmlAux ((tag.data ++
    '>' :: (text.data ++ '<' :: '/' :: (tag.data ++ ['>']))).drop (tag.data.length + 1))) = text
  rw [hdrop, cleanhtmlAux_no_lt text.data _ htext, hinner, List.append_nil, String.mk_data]

/-! ## Claim theorems -/

/-- C1, counterexample: `Superside.run` applies no invalid-page filtering.
A Page Capture stored under a key containing `-blog-author-` is processed
and produces a Document Store record, although the claim says no record is
produced for such keys (the key provably matches the configured
invalid-page substrings). -/
theorem c1_counterexample :
    (supersideRun (fun s => if s = "" then none else some (fun _ => []))
        [("pages/Superside/x-blog-author-y.json",
          "\x7b\"url\": \"u\", \"content\": \"h\"\x7d")] 0 "Superside" []).1 =
      [{ url := some (.str "u"), title := none, description := none, texts := none,
         updated_at := 0 }]
    ∧ invalid_pages.any (fun sub => isSubstringOf sub.data
        "pages/Superside/x-blog-author-y.json".data) = true :=
  ⟨rfl, rfl⟩

/-- C1, amended: for every set of Page Captures under `pages/<company>`,
when every listed key reads, parses and converts successfully,
`Superside.run` produces exactly one Document Store record per distinct URL
found — but it processes every listed key, one item per key, with no
invalid-page exclusion (that filtering exists only in the file-system-backed
`get_files_paths`, which `run` does not call). -/
theorem c1_run_one_record_per_url
    (fromstring : String → Option HtmlTree) (store : S3Store) (now : Nat) (company : String)
    (files : List String) (items : List Item)
    (hlist : list_files_from_path store ("pages/" ++ company) = some files)
    (hproc : processAll fromstring store now files = .ok items) :
    supersideRun fromstring store now company [] = (items.foldl replace_one [], none)
    ∧ items.length = files.length
    ∧ (∀ item ∈ items, urlCount item.url (items.foldl replace_one []) = 1)
    ∧ (∀ u, u ∈ (items.foldl replace_one []).map (fun d => d.url) →
        u ∈ items.map (fun d => d.url)) := by
  have hempty : AtMostOnePerUrl ([] : List Item) := by
    intro u
    simp [urlCount]
  refine ⟨?_, processAll_length fromstring store now files items hproc,
    urlCount_foldl_mem items [] hempty, ?_⟩
  · rw [supersideRun, hlist]
    exact runLoop_of_processAll fromstring store now files items [] hproc
  · intro u hu
    rcases mem_url_foldl items [] u hu with h | h
    · simp at h
    · exact h

/-- C1, witness: the amended theorem evaluated on a one-capture bucket. -/
theorem c1_witness :
    supersideRun (fun s => if s = "" then none else some (fun _ => []))
      [("pages/Superside/a.json", "\x7b\"url\": \"u\", \"content\": \"h\"\x7d")]
      0 "Superside" [] =
      ([{ url := some (.str "u"), title := none, description := none, texts := none,
          updated_at := 0 }].foldl replace_one [], none) :=
  (c1_run_one_record_per_url (fun s => if s = "" then none else some (fun _ => []))
    [("pages/Superside/a.json", "\x7b\"url\": \"u\", \"content\": \"h\"\x7d")]
    0 "Superside" ["pages/Superside/a.json"]
    [{ url := some (.str "u"), title := none, description := none, texts := none,
       updated_at := 0 }] rfl rfl).1

/-- C2, counterexample: on an HTML tree with no `__NEXT_DATA__` script tag,
`extract_next_data` raises `IndexError` at its `[0]` subscript instead of
returning the absent value the claim promises. -/
theorem c2_counterexample :
    extract_next_data (fun _ => []) = .error .indexError
    ∧ extract_next_data (fun _ => []) ≠ .ok none :=
  ⟨rfl, fun h => Except.noConfusion h⟩

/-- C2, amended: for every input HTML tree in which the `__NEXT_DATA__`
script-tag selector matches nothing, `extract_next_data` raises
`IndexError` — a missing script tag is a fatal condition for this function,
not a recoverable one. -/
theorem c2_missing_tag_raises (tree : HtmlTree) (h : tree nextDataSelector = []) :
    extract_next_data tree = .error .indexError := by
  rw [extract_next_data, h]

/-- C2, witness: the amended theorem at a tree with no matching nodes. -/
theorem c2_witness : extract_next_data (fun _ => []) = .error .indexError :=
  c2_missing_tag_raises (fun _ => []) rfl

/-- C3, counterexample: a batch of two Page Captures in which only the first
is unparsable (`html.fromstring` fails on its empty `content`) makes the
whole run abort with `ParserError` and zero records — while the second,
well-formed capture alone would have produced a record. -/
theorem c3_counterexample :
    supersideRun (fun s => if s = "" then none else some (fun _ => []))
      [("pages/Superside/a.json", "\x7b\"url\": \"u1\", \"content\": \"\"\x7d"),
       ("pages/Superside/b.json", "\x7b\"url\": \"u2\", \"content\": \"h\"\x7d")]
      0 "Superside" [] = ([], some .parserError)
    ∧ supersideRun (fun s => if s = "" then none else some (fun _ => []))
      [("pages/Superside/b.json", "\x7b\"url\": \"u2\", \"content\": \"h\"\x7d")]
      0 "Superside" [] =
      ([{ url := some (.str "u2"), title := none, description := none, texts := none,
          updated_at := 0 }], none) :=
  ⟨rfl, rfl⟩

/-- C3, amended: a failure while extracting a single page aborts the batch
at once — the loop of `Superside.run` has no error handling, so the
exception propagates, the remaining files are not processed, and only the
records upserted before the failure remain. -/
theorem c3_failure_aborts_batch (fromstring : String → Option HtmlTree) (store : S3Store)
    (now : Nat) (f : String) (fs : List String) (coll : List Item) (e : PyErr)
    (h : processFile fromstring store now f = .error e) :
    runLoop fromstring store now (f :: fs) coll = (coll, some e) :=
  runLoop_error fromstring store now f fs coll e h

/-- C3, witness: the amended theorem at a concrete failing first page. -/
theorem c3_witness :
    runLoop (fun s => if s = "" then none else some (fun _ => []))
      [("pages/Superside/a.json", "\x7b\"url\": \"u1\", \"content\": \"\"\x7d"),
       ("pages/Superside/b.json", "\x7b\"url\": \"u2\", \"content\": \"h\"\x7d")] 0
      ["pages/Superside/a.json", "pages/Superside/b.json"] [] = ([], some .parserError) :=
  c3_failure_aborts_batch (fun s => if s = "" then none else some (fun _ => []))
    [("pages/Superside/a.json", "\x7b\"url\": \"u1\", \"content\": \"\"\x7d"),
     ("pages/Superside/b.json", "\x7b\"url\": \"u2\", \"content\": \"h\"\x7d")] 0
    "pages/Superside/a.json" ["pages/Superside/b.json"] [] .parserError rfl

/-- C4: extraction is idempotent per URL.  From any collection satisfying
the at-most-one-record-per-url invariant: the invariant is preserved by any
sequence of upserts; one upsert leaves exactly one record with the item's
url; and upserting twice for the same url (the second run's record replaces
the first) still leaves exactly one record — never a duplicate. -/
theorem c4_upsert_idempotent (coll : List Item) (h : AtMostOnePerUrl coll) :
    (∀ items : List Item, AtMostOnePerUrl (items.foldl replace_one coll))
    ∧ (∀ item : Item, urlCount item.url (replace_one coll item) = 1)
    ∧ (∀ item item2 : Item, item2.url = item.url →
        urlCount item.url (replace_one (replace_one coll item) item2) = 1) := by
  refine ⟨fun items => atMostOne_foldl items coll h,
    fun item => urlCount_replace_one_eq_one h item, ?_⟩
  intro item item2 hurl
  rw [← hurl]
  exact urlCount_replace_one_eq_one (atMostOne_replace_one h item) item2

/-- C4, witness: upserting two records with the same url (a re-extraction
with a later timestamp) into an empty collection leaves exactly one. -/
theorem c4_witness :
    urlCount (some (.str "u"))
      (replace_one (replace_one ([] : List Item)
          { url := some (.str "u"), title := none, description := none, texts := none,
            updated_at := 0 })
          { url := some (.str "u"), title := some "t", description := none, texts := none,
            updated_at := 1 }) = 1 :=
  (c4_upsert_idempotent [] (by intro u; simp [urlCount])).2.2
    { url := some (.str "u"), title := none, description := none, texts := none,
      updated_at := 0 }
    { url := some (.str "u"), title := some "t", description := none, texts := none,
      updated_at := 1 } rfl

/-- C5, counterexample: the sanitised key is not injective — two distinct
URLs differing only in scheme map to the same Page Capture key, so distinct
fetched URLs do not always have distinct keys. -/
theorem c5_counterexample :
    ("http://superside.com/about" : String) ≠ "https://superside.com/about"
    ∧ file_path "Superside" "http://superside.com/about" =
        file_path "Superside" "https://superside.com/about" :=
  ⟨by decide, rfl⟩

/-- C5, amended: for every fetched URL the crawler stores exactly one Page
Capture under `pages/<site-id>/<sanitized-name>.json`, where the sanitised
name is derived deterministically (strip everything up to the last `://`,
replace `/` and every non-ASCII character with `-`): the capture is written
at that key, every other key is untouched, and re-fetching the same URL
overwrites the same single key — but the derivation is not injective, so
distinct URLs may collide on one key. -/
theorem c5_parse_item_key (store : S3Store) (name url content content2 : String)
    (h : keyCount store (file_path name url) ≤ 1) :
    s3Get (parse_item store name url content) (file_path name url) =
      some (dumps (.obj [("url", .str url), ("content", .str content)]))
    ∧ (∀ k, k ≠ file_path name url →
        s3Get (parse_item store name url content) k = s3Get store k)
    ∧ keyCount (parse_item store name url content) (file_path name url) = 1
    ∧ keyCount (parse_item (parse_item store name url content) name url content2)
        (file_path name url) = 1 := by
  refine ⟨s3Get_put_self store _ _, fun k hk => s3Get_put_other store _ _ k hk,
    keyCount_put_self store _ _ h, ?_⟩
  have h1 : keyCount (parse_item store name url content) (file_path name url) = 1 :=
    keyCount_put_self store _ _ h
  exact keyCount_put_self _ _ _ (by omega)

/-- C5, witness: the amended theorem at a concrete URL on an empty bucket. -/
theorem c5_witness :
    s3Get (parse_item [] "Superside" "https://a.com/b" "h")
      (file_path "Superside" "https://a.com/b") =
      some (dumps (.obj [("url", .str "https://a.com/b"), ("content", .str "h")])) :=
  (c5_parse_item_key [] "Superside" "https://a.com/b" "h" "h2" (by simp [keyCount])).1

/-- C6: the fallback extraction collects the values under `paragraph`,
`body` and `content` in that order at any nesting depth (all matches, not
just the first) and discards `title` values; on the payload
`{"a": {"paragraph": "X"}, "body": "Y"}` it collects `["X", "Y"]` and
returns `"X Y"`, and adding a `title` key leaves the result unchanged. -/
theorem c6_fallback_collects_in_order :
    nestedLookup "paragraph" (.obj [("a", .obj [("paragraph", .str "X")]), ("body", .str "Y")])
      ++ nestedLookup "body" (.obj [("a", .obj [("paragraph", .str "X")]), ("body", .str "Y")])
      ++ nestedLookup "content" (.obj [("a", .obj [("paragraph", .str "X")]), ("body", .str "Y")])
      = [.str "X", .str "Y"]
    ∧ extractFromJson (.obj [("a", .obj [("paragraph", .str "X")]), ("body", .str "Y")]) =
        .ok (some "X Y")
    ∧ extractFromJson (.obj [("title", .str "Z"), ("a", .obj [("paragraph", .str "X")]),
        ("body", .str "Y")]) = .ok (some "X Y")
    ∧ nestedLookup "paragraph" (.obj [("a", .obj [("b", .obj [("paragraph", .str "P1"),
        ("c", .obj [("paragraph", .str "P2")])])])]) = [.str "P1", .str "P2"] := by
  refine ⟨rfl, ?_, ?_, rfl⟩ <;>
    simp [extractFromJson, nestedLookup, nestedLookupKL, nestedLookupL, cleanValues,
      pyTruthy, pyStrip, pyWs, cleanhtml, cleanhtmlAux, tagEnd, joinSpace, joinWith,
      pyClean, removeNewlines, removeNbsp]

/-- C7, counterexample: `cleanhtml` is not the identity on the text between
tags when the text itself contains `<`: on `"<div>a<b</div>"` (which has the
claimed form `"<tag>text</tag>"` with tag `div` and text `a<b`) it returns
`"a"`, not `"a<b"` — the lazy pattern swallows from the `<` of the text to
the next `>`. -/
theorem c7_counterexample :
    "<" ++ "div" ++ ">" ++ "a<b" ++ "</" ++ "div" ++ ">" = "<div>a<b</div>"
    ∧ cleanhtml "<div>a<b</div>" = "a"
    ∧ ("a" : String) ≠ "a<b" := by
  refine ⟨rfl, ?_, by decide⟩
  simp [cleanhtml, cleanhtmlAux, tagEnd]

/-- C7, amended: `cleanhtml "<div>Test</div>" = "Test"`, and for every
input of the form `"<tag>text</tag>"` in which the tag contains neither `>`
nor a newline and the text contains no `<`, `cleanhtml` removes the two
tag-delimited spans and returns the text unchanged. -/
theorem c7_cleanhtml_strips_tags (tag text : String)
    (htag : ∀ c ∈ tag.data, c ≠ '>' ∧ c ≠ '\n') (htext : ∀ c ∈ text.data, c ≠ '<') :
    cleanhtml ("<" ++ tag ++ ">" ++ text ++ "</" ++ tag ++ ">") = text :=
  cleanhtml_wrapped tag text htag htext

/-- C7, witness: the amended theorem at the spec's concrete example. -/
theorem c7_witness : cleanhtml ("<" ++ "div" ++ ">" ++ "Test" ++ "</" ++ "div" ++ ">") = "Test" :=
  c7_cleanhtml_strips_tags "div" "Test" (by decide) (by decide)

/-- C8: a selector that matches nothing yields an absent value from
`extract_text_by_xpath` (no exception), and the fields of the run's item
are extracted independently: with no `og:title` meta tag the `title` field
is absent while `description` and `texts` are still produced whenever their
selectors match. -/
theorem c8_missing_selector_absent :
    (∀ (tree : HtmlTree) (selector : String), tree selector = [] →
      extract_text_by_xpath tree selector = none)
    ∧ (∀ (tree : HtmlTree) (u : Option Json) (now : Nat),
        tree "//meta[@property=\"og:title\"]//@content" = [] →
        (mkItem tree u now).title = none
        ∧ (tree "//meta[@name=\"description\"]//@content" ≠ [] →
            ((mkItem tree u now).description).isSome = true)
        ∧ (tree "//p//text()" ≠ [] → ((mkItem tree u now).texts).isSome = true)) := by
  have hnone : ∀ (tree : HtmlTree) (selector : String), tree selector = [] →
      extract_text_by_xpath tree selector = none := by
    intro tree selector h
    rw [extract_text_by_xpath, h]
  have hsome : ∀ (tree : HtmlTree) (selector : String), tree selector ≠ [] →
      (extract_text_by_xpath tree selector).isSome = true := by
    intro tree selector h
    rw [extract_text_by_xpath]
    cases hts : tree selector with
    | nil => exact absurd hts h
    | cons a l => rfl
  refine ⟨hnone, fun tree u now htitle => ⟨?_, fun hdesc => ?_, fun htext => ?_⟩⟩
  · exact hnone tree _ htitle
  · exact hsome tree _ hdesc
  · exact hsome tree _ htext

/-- C8, witness: a tree with no `og:title` match but matching description
and paragraph selectors yields an absent title and present other fields. -/
theorem c8_witness :
    (mkItem (fun sel => if sel = "//meta[@name=\"description\"]//@content" then ["D"]
        else if sel = "//p//text()" then ["T"] else []) none 0).title = none
    ∧ ((mkItem (fun sel => if sel = "//meta[@name=\"description\"]//@content" then ["D"]
        else if sel = "//p//text()" then ["T"] else []) none 0).description).isSome = true
    ∧ ((mkItem (fun sel => if sel = "//meta[@name=\"description\"]//@content" then ["D"]
        else if sel = "//p//text()" then ["T"] else []) none 0).texts).isSome = true := by
  have h := c8_missing_selector_absent.2
    (fun sel => if sel = "//meta[@name=\"description\"]//@content" then ["D"]
      else if sel = "//p//text()" then ["T"] else []) none 0 rfl
  exact ⟨h.1, h.2.1 (by decide), h.2.2 (by decide)⟩

/-- C9: storing a mapping through the Object Store client and reading it
back at the same key yields the identical mapping — `save_dict_to_json`
followed by `read_json` is the identity on the JSON value.  The hypothesis
restricts the mapping to printable-ASCII strings, the fragment on which the
embedded encoder coincides with Python's `json.dumps`. -/
theorem c9_put_get_roundtrip (store : S3Store) (kvs : List (String × Json)) (path : String)
    (hwf : wfJ (.obj kvs) = true) :
    read_json (save_dict_to_json store (.obj kvs) path) path = .ok (.obj kvs) := by
  have h1 : s3Get (save_dict_to_json store (.obj kvs) path) path =
      some (dumps (.obj kvs)) :=
    s3Get_put_self store path (dumps (.obj kvs))
  rw [read_json, h1]
  show (match loads (dumps (.obj kvs)) with
        | some j => Except.ok j
        | none => Except.error PyErr.jsonDecodeError) = .ok (.obj kvs)
  rw [loads_dumps]

/-- C9, witness: the round trip at the repository test's fixture
`{"key": "value"}`. -/
theorem c9_witness :
    wfJ (.obj [("key", .str "value")]) = true
    ∧ read_json (save_dict_to_json [] (.obj [("key", .str "value")]) "test.json")
        "test.json" = .ok (.obj [("key", .str "value")]) :=
  ⟨rfl, c9_put_get_roundtrip [] [("key", .str "value")] "test.json" rfl⟩

/-- C10: on a bucket with no key under `pages/<company>`,
`list_files_from_path` returns `None` rather than an empty list, and
`Superside.run`, iterating over that result unconditionally, raises
`TypeError` instead of completing normally with zero records. -/
theorem c10_empty_namespace_fails (fromstring : String → Option HtmlTree) (store : S3Store)
    (now : Nat) (company : String) (coll : List Item)
    (h : ∀ kv ∈ store, ("pages/" ++ company).data.isPrefixOf kv.1.data = false) :
    list_files_from_path store ("pages/" ++ company) = none
    ∧ supersideRun fromstring store now company coll = (coll, some .typeError) := by
  have hfilter : store.filter
      (fun kv => ("pages/" ++ company).data.isPrefixOf kv.1.data) = [] := by
    rw [List.filter_eq_nil_iff]
    intro a ha
    exact fun hc => by rw [h a ha] at hc; exact Bool.noConfusion hc
  have hlist : list_files_from_path store ("pages/" ++ company) = none := by
    rw [list_files_from_path, hfilter]
  exact ⟨hlist, by rw [supersideRun, hlist]⟩

/-- C10, witness: the empty bucket. -/
theorem c10_witness :
    list_files_from_path [] ("pages/" ++ "Superside") = none
    ∧ supersideRun (fun _ => none) [] 0 "Superside" [] = ([], some .typeError) :=
  c10_empty_namespace_fails (fun _ => none) [] 0 "Superside" []
    (fun kv hkv => absurd hkv (List.not_mem_nil kv))

end MktChatbot
